import Mathlib

/-!
Shallow embedding of `src/memory_server.py` (Joopsnijder/personal-memory-mcp):
the `PersonalMemoryStorage` class, its hierarchical `personal_info` tree, the
one-time migration pass, the key-resolution engine (get/set with dot paths,
legacy prefixes and category suggestion), memory search and goal updates.

Python dictionaries are modelled as insertion-ordered association lists
(`Dict`): `d[k] = v` updates an existing key in place and appends a new key at
the end, `pop` removes the single binding, and iteration follows insertion
order, exactly as in CPython.
-/

set_option maxHeartbeats 1000000

namespace PersonalMemory

/-- A JSON-like value: the leaves stored in `personal_info` are strings (the
tool layer passes `value: str`), internal nodes are objects. -/
inductive Value where
  | str : String → Value
  | obj : List (String × Value) → Value
deriving Repr

mutual

/-- Decidable equality on `Value` (hand-written: the nested inductive has no
derived handler). -/
def Value.decEqV : (a b : Value) → Decidable (a = b)
  | .str a, .str b =>
    if h : a = b then .isTrue (by rw [h]) else .isFalse (by simp [h])
  | .str _, .obj _ => .isFalse (by simp)
  | .obj _, .str _ => .isFalse (by simp)
  | .obj a, .obj b =>
    match Value.decEqD a b with
    | .isTrue h => .isTrue (by rw [h])
    | .isFalse h => .isFalse (by simp [h])

/-- Decidable equality on lists of entries, mutually with `Value.decEqV`. -/
def Value.decEqD : (a b : List (String × Value)) → Decidable (a = b)
  | [], [] => .isTrue rfl
  | [], _ :: _ => .isFalse (by simp)
  | _ :: _, [] => .isFalse (by simp)
  | (k, v) :: t, (k', v') :: t' =>
    if hk : k = k' then
      match Value.decEqV v v' with
      | .isTrue hv =>
        match Value.decEqD t t' with
        | .isTrue ht => .isTrue (by rw [hk, hv, ht])
        | .isFalse ht => .isFalse (by simp [ht])
      | .isFalse hv => .isFalse (by simp [hv])
    else .isFalse (by simp [hk])

end

instance : DecidableEq Value := Value.decEqV

/-- A Python dict with string keys, as an insertion-ordered association list. -/
abbrev Dict := List (String × Value)

/-- First binding of `key`, mirroring Python `d[key]` / `key in d`. -/
def dlookup : Dict → String → Option Value
  | [], _ => none
  | (k, v) :: t, key => if k = key then some v else dlookup t key

/-- Python `key in d`. -/
def hasKey (d : Dict) (key : String) : Bool :=
  (dlookup d key).isSome

/-- Python `d[key] = v`: update in place if present, append otherwise. -/
def dinsert : Dict → String → Value → Dict
  | [], key, v => [(key, v)]
  | (k, w) :: t, key, v =>
    if k = key then (key, v) :: t else (k, w) :: dinsert t key v

/-- Python `d.pop(key)` (the removal part): drop the single binding of `key`. -/
def dremove : Dict → String → Dict
  | [], _ => []
  | (k, v) :: t, key => if k = key then t else (k, v) :: dremove t key

/-- Whether a value is a Python dict (`isinstance(v, dict)`). -/
def isObj : Value → Bool
  | .obj _ => true
  | _ => false

/-- Character-list prefix test, mirroring Python `str.startswith`. -/
def lStarts : List Char → List Char → Bool
  | [], _ => true
  | _ :: _, [] => false
  | a :: t, b :: u => if a = b then lStarts t u else false

/-- Character-list substring test, mirroring Python `pat in s`. -/
def lSub : List Char → List Char → Bool
  | pat, [] => pat.isEmpty
  | pat, b :: t => lStarts pat (b :: t) || lSub pat t

/-- Python `s.startswith(p)`. -/
def strStarts (s p : String) : Bool := lStarts p.toList s.toList

/-- Python `p in s` (substring containment). -/
def strSub (p s : String) : Bool := lSub p.toList s.toList

/-- Python `s[n:]` (drop the first `n` characters). -/
def strDrop (s : String) (n : Nat) : String := String.mk (s.toList.drop n)

/-- Python `s.lower()` (ASCII case folding, as all keys in play are ASCII). -/
def strLower (s : String) : String := String.mk (s.toList.map Char.toLower)

/-- Python `"." in key`. -/
def containsDot (key : String) : Bool := key.toList.contains '.'

/-- Helper for `splitDot`: accumulates the current piece (reversed). -/
def splitDotAux : List Char → List Char → List String
  | [], acc => [String.mk acc.reverse]
  | c :: t, acc =>
    if c = '.' then String.mk acc.reverse :: splitDotAux t [] else splitDotAux t (c :: acc)

/-- Python `key.split(".")`. -/
def splitDot (key : String) : List String := splitDotAux key.toList []

/-- Dot-path traversal from `_get_hierarchical_value`: navigate through all
parts; a part that is missing (or a non-dict node) aborts the traversal
(`none`, the Python `break`). -/
def getPath : List String → Value → Option Value
  | [], v => some v
  | p :: ps, .obj d =>
    match dlookup d p with
    | some v => getPath ps v
    | none => none
  | _ :: _, .str _ => none

/-- Dot-path creation from `_set_hierarchical_value` (the `"." in key` branch):
navigate through all parts except the last, creating intermediate dicts and
overwriting non-dict intermediates with `{}`, then set the final value. -/
def setParts : List String → Value → Dict → Dict
  | [], _, d => d
  | p :: ps, v, d =>
    match ps with
    | [] => dinsert d p v
    | _ :: _ =>
      let child : Dict :=
        match dlookup d p with
        | some (.obj d') => d'
        | _ => []
      dinsert d p (.obj (setParts ps v child))

/-- Inner loop of the legacy fallback in `_get_hierarchical_value`: for each
stored leaf, test `key == f"{category_name}_{stored_key}"` and
`key == f"book_{stored_key}"`. -/
def scanPrefixed (cname : String) : Dict → String → Option Value
  | [], _ => none
  | (sk, sv) :: rest, key =>
    if key = cname ++ "_" ++ sk ∨ key = "book_" ++ sk then some sv
    else scanPrefixed cname rest key

/-- Legacy fallback of `_get_hierarchical_value`: scan every top-level
category's direct children for an exact-name match, then for prefixed
reconstructions. -/
def scanLegacy : Dict → String → Option Value
  | [], _ => none
  | (cname, cdata) :: rest, key =>
    match cdata with
    | .obj d =>
      match dlookup d key with
      | some v => some v
      | none =>
        match scanPrefixed cname d key with
        | some v => some v
        | none => scanLegacy rest key
    | .str _ => scanLegacy rest key

/-- Source `_get_hierarchical_value`: direct top-level hit, then dot-notation
traversal, then the legacy scan. `none` models `(None, False)`. -/
def get_hierarchical_value (pi : Dict) (key : String) : Option Value :=
  match dlookup pi key with
  | some v => some v
  | none =>
    match (if containsDot key then getPath (splitDot key) (.obj pi) else none) with
    | some v => some v
    | none => scanLegacy pi key

/-- The `legacy_mappings` table of `_set_hierarchical_value`. -/
def legacy_mappings : List (String × String) :=
  [("name", "basic.name"),
   ("woonplaats", "basic.woonplaats"),
   ("linkedin_profile", "basic.linkedin_profile"),
   ("email_infosupport", "basic.email_infosupport"),
   ("email_aigency", "basic.email_aigency"),
   ("job_title", "career.job_title"),
   ("full_job_roles", "career.full_job_roles"),
   ("career_background", "career.career_background"),
   ("expertise", "career.expertise"),
   ("expertise_areas", "career.expertise_areas"),
   ("research_interests", "career.research_interests")]

/-- Lookup in a plain string-to-string table (Python `key in table` / `table[key]`). -/
def tlookup : List (String × String) → String → Option String
  | [], _ => none
  | (k, v) :: t, key => if k = key then some v else tlookup t key

/-- Source `_suggest_category_for_key`: keyword-substring rules over the lower-cased
key, evaluated in the source's order; `none` models Python `return None`. -/
def suggest_category_for_key (key : String) : Option String :=
  let kl := strLower key
  if ["email", "phone", "address", "contact", "location"].any (fun p => strSub p kl) then
    some "basic"
  else if ["job", "work", "career", "role", "position", "company"].any (fun p => strSub p kl) then
    some "career"
  else if strStarts kl "book_" || ["publication", "isbn", "publisher"].any (fun p => strSub p kl) then
    some "book"
  else if ["project", "innovation", "tool", "framework", "canvas"].any (fun p => strSub p kl) then
    some "innovations"
  else if ["communication", "style", "preference", "podcast", "speaking"].any (fun p => strSub p kl) then
    some "communication"
  else if ["value", "insight", "principle", "belief", "method"].any (fun p => strSub p kl) then
    some "values_insights"
  else
    none

/-- The dotted-key branch of `_set_hierarchical_value`. The source's non-dot
branches recurse with a freshly built dotted key, which always re-enters this
branch, so the recursion is unfolded into direct calls of this helper. -/
def set_hier_dotted (pi : Dict) (key : String) (v : Value) : Dict :=
  setParts (splitDot key) v pi

/-- Source `_set_hierarchical_value`: dot notation, then the three well-known
prefixes, then the legacy table, then category suggestion, then `misc`.
The returned `Bool` is the source's return value (`True` on every path). -/
def set_hierarchical_value (pi : Dict) (key : String) (v : Value) : Dict × Bool :=
  if containsDot key then
    (set_hier_dotted pi key v, true)
  else if strStarts key "book_" then
    (set_hier_dotted pi ("book." ++ strDrop key 5) v, true)
  else if strStarts key "formula_ai_" then
    (set_hier_dotted pi ("innovations.formula_ai." ++ strDrop key 11) v, true)
  else if strStarts key "ai_experiment_canvas_" then
    (set_hier_dotted pi ("innovations.ai_experiment_canvas." ++ strDrop key 21) v, true)
  else
    match tlookup legacy_mappings key with
    | some path => (set_hier_dotted pi path v, true)
    | none =>
      match suggest_category_for_key key with
      | some c => (set_hier_dotted pi (c ++ "." ++ key) v, true)
      | none =>
        let miscd : Dict :=
          match dlookup pi "misc" with
          | some (.obj d) => d
          | _ => []
        (dinsert pi "misc" (.obj (dinsert miscd key v)), true)

/-- The `hierarchical_categories` list used by the migration's
already-migrated check (note: `misc` is not in it). -/
def hierarchical_categories : List String :=
  ["basic", "career", "book", "work_roles", "innovations", "communication", "values_insights"]

/-- The `hierarchical_mapping` table of `_migrate_personal_info_structure`. -/
def hierarchical_mapping : List (String × List String) :=
  [("basic",
    ["name", "woonplaats", "linkedin_profile", "email_infosupport", "email_aigency"]),
   ("career",
    ["job_title", "full_job_roles", "career_background", "expertise",
     "expertise_areas", "research_interests"]),
   ("book",
    ["book_title", "book_subtitle", "book_isbn", "book_publisher", "book_year",
     "book_edition", "book_format", "book_language", "book_category",
     "book_summary", "book_learning_outcomes", "book_keywords",
     "book_managementboek_url", "book_publisher_full", "book_boom_url",
     "book_topics_detailed"]),
   ("work_roles",
    ["aigency_work", "research_center_focus", "dnb_coaching_role",
     "edih_advisory_role", "ai_governance_board_role", "raise_program_role"]),
   ("innovations",
    ["formula_ai_creator", "formula_ai_concept", "formula_ai_goals",
     "formula_ai_mechanics", "formula_ai_drs_package", "formula_ai_target_audience",
     "ai_experiment_canvas_creator", "ai_experiment_canvas_structure",
     "ai_ideation_workshop_concept", "ai_design_week_process", "workshop_client_testimonials"]),
   ("communication",
    ["podcast_details", "writing_style", "communication_preferences",
     "critical_attitudes", "positive_attitudes", "personal_projects"]),
   ("values_insights",
    ["core_values", "key_insights", "methods_frameworks"])]

/-- Migration helper: strip the `book_` prefix from a mapped key
(`clean_key = key[5:]`), leave other keys unchanged. -/
def stripBook (key : String) : String :=
  if strStarts key "book_" then strDrop key 5 else key

/-- Migration: build one category's data from the flat `personal_info`, in the
mapping table's key order. -/
def buildCategory (pi : Dict) (keys : List String) : Dict :=
  keys.foldl
    (fun acc k =>
      match dlookup pi k with
      | some v => dinsert acc (stripBook k) v
      | none => acc)
    []

/-- Migration: the keys of the flat `personal_info` matched by the mapping
table (the source's `migrated_keys` set). -/
def matchedKeys (pi : Dict) : List String :=
  hierarchical_mapping.foldl (fun acc p => acc ++ p.2.filter (fun k => hasKey pi k)) []

/-- Migration: the `new_structure` before the innovations special-casing;
a category is added only when its data is non-empty. -/
def buildNewStructure (pi : Dict) : Dict :=
  hierarchical_mapping.foldl
    (fun acc p =>
      let cd := buildCategory pi p.2
      if cd.isEmpty then acc else dinsert acc p.1 (.obj cd))
    []

/-- Migration, innovations special-casing, first loop: group `formula_ai_*`
and `ai_experiment_canvas_*` entries (prefix stripped) out of the category.
Returns `(formula_ai_data, ai_canvas_data, remaining innovations entries)`.
The two `elif key in [...]` arms of the source are kept although the prefix
arms above them already catch those keys. -/
def innovationsGroups (inn : Dict) : Dict × Dict × Dict :=
  inn.foldl
    (fun acc kv =>
      let fa := acc.1
      let canv := acc.2.1
      let rem := acc.2.2
      if strStarts kv.1 "formula_ai_" then
        (dinsert fa (strDrop kv.1 11) kv.2, canv, rem)
      else if strStarts kv.1 "ai_experiment_canvas_" then
        (fa, dinsert canv (strDrop kv.1 21) kv.2, rem)
      else if kv.1 = "ai_experiment_canvas_creator" then
        (fa, dinsert canv "creator" kv.2, rem)
      else if kv.1 = "formula_ai_creator" then
        (dinsert fa "creator" kv.2, canv, rem)
      else
        (fa, canv, dinsert rem kv.1 kv.2))
    ([], [], [])

/-- Migration, innovations special-casing, second loop: move the three
workshop/design keys from the remaining innovations entries into
`ai_canvas_data`. -/
def moveWorkshopKeys (canv rem : Dict) : Dict × Dict :=
  ["ai_ideation_workshop_concept", "ai_design_week_process", "workshop_client_testimonials"].foldl
    (fun acc k =>
      match dlookup acc.2 k with
      | some v => (dinsert acc.1 k v, dremove acc.2 k)
      | none => acc)
    (canv, rem)

/-- Migration: the whole innovations special-casing. In the source,
`innovations_data` is an alias of `new_structure["innovations"]`, so by the
time the final conditional runs it holds the remaining entries plus the
freshly added `formula_ai` / `ai_experiment_canvas` groups (`innAfter` here);
the conditional and the comprehension `{k: v for k, v in
new_structure["innovations"].items() if k not in innovations_data}` are
translated with that alias resolved. -/
def migrateInnovations (inn : Dict) : Dict :=
  let groups := innovationsGroups inn
  let moved := moveWorkshopKeys groups.2.1 groups.2.2
  let fa := groups.1
  let canv := moved.1
  let rem := moved.2
  let innAfter0 := if fa.isEmpty then rem else dinsert rem "formula_ai" (.obj fa)
  let innAfter :=
    if canv.isEmpty then innAfter0 else dinsert innAfter0 "ai_experiment_canvas" (.obj canv)
  if (innAfter.isEmpty && hasKey innAfter "formula_ai") || hasKey innAfter "ai_experiment_canvas" then
    innAfter.filter (fun kv => !hasKey innAfter kv.1)
  else
    innAfter

/-- Source `_migrate_personal_info_structure` on the `personal_info` dict. The
returned `Bool` is the no-op signal: `false` when the structure is detected as
already hierarchical (early `return`) or nothing was built, `true` when the
new structure replaces `personal_info` (and the source saves and prints).
Python iterates `remaining_keys` as a set; it is modelled in the original
insertion order. -/
def migrate_personal_info_structure (pi : Dict) : Dict × Bool :=
  if pi.any (fun kv => hierarchical_categories.contains kv.1 && isObj kv.2) then
    (pi, false)
  else
    let ns0 := buildNewStructure pi
    let ns1 :=
      match dlookup ns0 "innovations" with
      | some (.obj inn) => dinsert ns0 "innovations" (.obj (migrateInnovations inn))
      | _ => ns0
    let migrated := matchedKeys pi
    let remaining := pi.filter (fun kv => !migrated.contains kv.1)
    let ns2 := if remaining.isEmpty then ns1 else dinsert ns1 "misc" (.obj remaining)
    if ns2.isEmpty then (pi, false) else (ns2, true)

/-- A memory entry (`content`, `tags`, `timestamp`; `id` and `context` do not
affect the searched fields and the claims, but are kept for fidelity). -/
structure Memory where
  id : Nat
  content : String
  tags : List String
  context : Option String
  timestamp : String
deriving Repr, DecidableEq

/-- A goal entry. -/
structure Goal where
  id : Int
  goal : String
  category : String
  deadline : Option String
  priority : String
  status : String
  created_at : String
  updated_at : Option String
deriving Repr, DecidableEq

/-- The persisted document (`memory_data`). -/
structure Doc where
  personal_info : Dict
  preferences : Dict
  memories : List Memory
  relationships : Dict
  goals : List Goal
  created_at : String
  last_updated : String
deriving Repr, DecidableEq

/-- Source `_initialize_memory` at time `now`. -/
def initialize_memory (now : String) : Doc :=
  ⟨[], [], [], [], [], now, now⟩

/-- Source `_save_memory`: stamps `last_updated` (the file write itself is I/O). -/
def save_memory (now : String) (d : Doc) : Doc :=
  { d with last_updated := now }

/-- Result object of `store_personal_info`. -/
structure StoreResult where
  status : String
  message : String
deriving Repr, DecidableEq

/-- Source `store_personal_info`: set, then save on success. The error branch is
kept although `_set_hierarchical_value` never returns `False`. -/
def store_personal_info (now : String) (d : Doc) (key : String) (v : Value) :
    Doc × StoreResult :=
  let r := set_hierarchical_value d.personal_info key v
  if r.2 then
    (save_memory now { d with personal_info := r.1 }, ⟨"success", "Stored " ++ key⟩)
  else
    ({ d with personal_info := r.1 }, ⟨"error", "Failed to store " ++ key⟩)

/-- Result object of `get_personal_info` with a key given. -/
structure GetResult where
  value : Option Value
  found : Bool
deriving Repr, DecidableEq

/-- Source `get_personal_info` with a key: `{key, value, found}` (the echoed key is
omitted). -/
def get_personal_info (d : Doc) (key : String) : GetResult :=
  match get_hierarchical_value d.personal_info key with
  | some v => ⟨some v, true⟩
  | none => ⟨none, false⟩

/-- The match test of `search_memories`, mirroring Python truthiness:
`if query and query.lower() in content.lower()`, `if tags and any(...)`,
`if not query and not tags`. `none` models an omitted argument. -/
def memoryMatches (query : Option String) (tags : Option (List String)) (m : Memory) : Bool :=
  let qTruthy := match query with
    | some q => !(q = "")
    | none => false
  let qMatch := match query with
    | some q => !(q = "") && strSub (strLower q) (strLower m.content)
    | none => false
  let tTruthy := match tags with
    | some ts => !ts.isEmpty
    | none => false
  let tMatch := match tags with
    | some ts => ts.any (fun t => (m.tags.map strLower).contains (strLower t))
    | none => false
  qMatch || (tTruthy && tMatch) || (!qTruthy && !tTruthy)

/-- Descending-by-timestamp order used by
`sorted(results, key=lambda x: x["timestamp"], reverse=True)`; CPython's sort
is stable and `reverse=True` keeps ties in original order, which
`List.insertionSort` with this relation reproduces. -/
def newerEq (a b : Memory) : Prop := b.timestamp ≤ a.timestamp

instance : DecidableRel newerEq := fun a b => by
  unfold newerEq
  infer_instance

/-- Python `results[:limit]` where `limit` is an `int`: a non-negative stop
takes that many elements, a negative stop means `len(results) + limit`. -/
def pySlice (limit : Int) (l : List Memory) : List Memory :=
  if 0 ≤ limit then l.take limit.toNat else l.take ((l.length : Int) + limit).toNat

/-- Result object of `search_memories`. -/
structure SearchResult where
  memories : List Memory
  count : Nat
  total_memories : Nat
deriving Repr, DecidableEq

/-- Source `search_memories`: filter by the match test (the Python loop appends in
order, i.e. `filter`), sort newest-first (stable), slice to `limit`. -/
def search_memories (mems : List Memory) (query : Option String)
    (tags : Option (List String)) (limit : Int) : SearchResult :=
  let results := mems.filter (memoryMatches query tags)
  let sortedRes := List.insertionSort newerEq results
  let final := pySlice limit sortedRes
  ⟨final, final.length, mems.length⟩

/-- Result object of `update_goal_status`. -/
structure UpdateResult where
  status : String
  message : String
  goal : Option Goal
deriving Repr, DecidableEq

/-- The loop of `update_goal_status`: update the first goal whose id matches,
returning the new list, the updated goal and its old status. -/
def updateGoalsList (now : String) (goal_id : Int) (st : String) :
    List Goal → Option (List Goal × Goal × String)
  | [] => none
  | g :: t =>
    if g.id = goal_id then
      let g' := { g with status := st, updated_at := some now }
      some (g' :: t, g', g.status)
    else
      match updateGoalsList now goal_id st t with
      | some r => some (g :: r.1, r.2.1, r.2.2)
      | none => none

/-- Source `update_goal_status`: on a hit, mutate the goal, save and report; on a
miss, return the error result without touching the document. -/
def update_goal_status (now : String) (d : Doc) (goal_id : Int) (st : String) :
    Doc × UpdateResult :=
  match updateGoalsList now goal_id st d.goals with
  | some r =>
    (save_memory now { d with goals := r.1 },
     ⟨"success",
      "Goal " ++ toString goal_id ++ " status updated from " ++ r.2.2 ++ " to " ++ st,
      some r.2.1⟩)
  | none => (d, ⟨"error", "Goal " ++ toString goal_id ++ " not found", none⟩)

/-- The leaves currently inside `misc` (empty when `misc` is absent or not a
dict). -/
def miscLeaves (pi : Dict) : Dict :=
  match dlookup pi "misc" with
  | some (.obj d) => d
  | _ => []

/-- Result object of `reorganize_misc_items`. -/
structure ReorgResult where
  status : String
  moved : Nat
  remaining_in_misc : Nat
deriving Repr, DecidableEq

/-- Modelled from the spec: `reorganize_misc_items` is exercised by
`src/tests/test_memory_server.py` but its implementation is missing from
`src/memory_server.py`. Per spec §4.2, it re-runs the category-suggestion
rules against every leaf currently inside `misc`, moves each leaf with a
non-empty suggestion to `{suggestion}.{leaf-name}` and removes it from `misc`,
leaves the others in place, and reports the counts moved and remaining. -/
def reorganize_misc_items (now : String) (d : Doc) : Doc × ReorgResult :=
  match dlookup d.personal_info "misc" with
  | some (.obj miscd) =>
    let movers := miscd.filter (fun kv => (suggest_category_for_key kv.1).isSome)
    let stayers := miscd.filter (fun kv => (suggest_category_for_key kv.1).isNone)
    let pi1 := dinsert d.personal_info "misc" (.obj stayers)
    let pi2 := movers.foldl
      (fun acc kv =>
        match suggest_category_for_key kv.1 with
        | some c => setParts [c, kv.1] kv.2 acc
        | none => acc)
      pi1
    (save_memory now { d with personal_info := pi2 },
     ⟨"success", movers.length, stayers.length⟩)
  | _ => (d, ⟨"success", 0, 0⟩)

/-- The category-suggestion rules exactly as the spec describes them: an
ordered list of (category, predicate) pairs, written to be compared with the
source-derived `suggest_category_for_key`. -/
def suggestionRules : List (String × (String → Bool)) :=
  [("basic",
    fun kl => ["email", "phone", "address", "contact", "location"].any (fun p => strSub p kl)),
   ("career",
    fun kl => ["job", "work", "career", "role", "position", "company"].any (fun p => strSub p kl)),
   ("book",
    fun kl => strStarts kl "book_"
      || ["publication", "isbn", "publisher"].any (fun p => strSub p kl)),
   ("innovations",
    fun kl => ["project", "innovation", "tool", "framework", "canvas"].any (fun p => strSub p kl)),
   ("communication",
    fun kl => ["communication", "style", "preference", "podcast", "speaking"].any (fun p => strSub p kl)),
   ("values_insights",
    fun kl => ["value", "insight", "principle", "belief", "method"].any (fun p => strSub p kl))]

/-- First-match-wins evaluation of `suggestionRules` over the lower-cased key
(the spec's description of category suggestion). -/
def suggestFirstMatch (key : String) : Option String :=
  (suggestionRules.find? (fun r => r.2 (strLower key))).map Prod.fst

/-- The misc-reorganization scenario of the test suite
(`test_misc_reorganization`): five leaves stored inside `misc` from the
initialized document — `random_item` and `unknown_thing` (no suggestion)
plus `email_backup`, `ai_tool` and `core_value` (categorizable). -/
def c7doc : Doc :=
  (store_personal_info "t5"
    (store_personal_info "t4"
      (store_personal_info "t3"
        (store_personal_info "t2"
          (store_personal_info "t1" (initialize_memory "t0")
            "misc.random_item" (Value.str "stays here")).1
          "misc.unknown_thing" (Value.str "also stays")).1
        "misc.email_backup" (Value.str "test@example.com")).1
      "misc.ai_tool" (Value.str "ChatGPT for writing")).1
    "misc.core_value" (Value.str "Honesty")).1

instance : IsTotal Memory newerEq :=
  ⟨fun a b => le_total b.timestamp a.timestamp⟩

instance : IsTrans Memory newerEq :=
  ⟨fun _ _ _ hab hbc => le_trans hbc hab⟩

/-- The claim's match criterion for `search_memories`, written from the
claim's words and amended with Python truthiness: a query given as the empty
string or tags given as the empty list count as not given. A memory matches
when the (nonempty) query occurs case-insensitively in its content, or some
given tag is case-insensitively among its tags, or neither filter is given. -/
def matchSpecP (query : Option String) (tags : Option (List String)) (m : Memory) : Prop :=
  (∃ q, query = some q ∧ q ≠ "" ∧ strSub (strLower q) (strLower m.content) = true)
  ∨ (∃ ts, tags = some ts ∧ ∃ t ∈ ts, strLower t ∈ m.tags.map strLower)
  ∨ ((query = none ∨ query = some "") ∧ (tags = none ∨ tags = some []))

/-! ### Helper lemmas -/

theorem dlookup_dinsert_self (d : Dict) (k : String) (v : Value) :
    dlookup (dinsert d k v) k = some v := by
  induction d with
  | nil => simp [dinsert, dlookup]
  | cons kv t ih =>
    by_cases h : kv.1 = k
    · simp [dinsert, dlookup, h]
    · simp only [dinsert, dlookup]
      rw [if_neg h, dlookup, if_neg h]
      exact ih

theorem splitDotAux_ne_nil (l acc : List Char) : splitDotAux l acc ≠ [] := by
  induction l generalizing acc with
  | nil => simp [splitDotAux]
  | cons c t ih =>
    simp only [splitDotAux]
    split
    · simp
    · exact ih _

theorem splitDot_ne_nil (key : String) : splitDot key ≠ [] :=
  splitDotAux_ne_nil _ _

theorem mem_splitDotAux_no_dot (l acc : List Char) (hacc : '.' ∉ acc) :
    ∀ p ∈ splitDotAux l acc, '.' ∉ p.toList := by
  induction l generalizing acc with
  | nil =>
    intro p hp
    simp only [splitDotAux, List.mem_singleton] at hp
    subst hp
    simpa using hacc
  | cons c t ih =>
    intro p hp
    simp only [splitDotAux] at hp
    by_cases hc : c = '.'
    · rw [if_pos hc] at hp
      rcases List.mem_cons.mp hp with h | h
      · subst h; simpa using hacc
      · exact ih [] (by simp) p h
    · rw [if_neg hc] at hp
      refine ih (c :: acc) ?_ p hp
      intro hmem
      rcases List.mem_cons.mp hmem with h | h
      · exact hc h.symm
      · exact hacc h

theorem mem_splitDot_no_dot (key : String) : ∀ p ∈ splitDot key, '.' ∉ p.toList :=
  mem_splitDotAux_no_dot _ _ (by simp)

theorem splitDotAux_no_dot (l : List Char) (acc : List Char) (h : '.' ∉ l) :
    splitDotAux l acc = [String.mk (acc.reverse ++ l)] := by
  induction l generalizing acc with
  | nil => simp [splitDotAux]
  | cons c t ih =>
    simp only [splitDotAux]
    have hc : c ≠ '.' := fun hcc => h (by simp [hcc])
    rw [if_neg hc, ih (c :: acc) (fun hm => h (List.mem_cons_of_mem _ hm))]
    simp

theorem mk_toList (s : String) : String.mk s.toList = s := rfl

theorem splitDotAux_dot (l acc : List Char) :
    splitDotAux ('.' :: l) acc = String.mk acc.reverse :: splitDotAux l [] := by
  simp [splitDotAux]

theorem splitDotAux_append (l1 l2 acc : List Char) (h : '.' ∉ l1) :
    splitDotAux (l1 ++ l2) acc = splitDotAux l2 (l1.reverse ++ acc) := by
  induction l1 generalizing acc with
  | nil => simp
  | cons c t ih =>
    have hc : c ≠ '.' := fun hcc => h (by simp [hcc])
    have h' : '.' ∉ t := fun hm => h (List.mem_cons_of_mem _ hm)
    show splitDotAux (c :: (t ++ l2)) acc = _
    simp only [splitDotAux]
    rw [if_neg hc, ih (c :: acc) h']
    simp

theorem splitDot_append_one (c rest : String) (hc : '.' ∉ c.toList)
    (hrest : '.' ∉ rest.toList) :
    splitDot (c ++ "." ++ rest) = [c, rest] := by
  show splitDotAux ((c ++ "." ++ rest).toList) [] = [c, rest]
  have ht : (c ++ "." ++ rest).toList = c.toList ++ ('.' :: rest.toList) := by
    show c.toList ++ ['.'] ++ rest.toList = c.toList ++ ('.' :: rest.toList)
    simp
  rw [ht, splitDotAux_append _ _ _ hc]
  rw [splitDotAux_dot, splitDotAux_no_dot _ _ hrest]
  rw [List.append_nil, List.reverse_reverse, List.reverse_nil, List.nil_append]
  rw [mk_toList, mk_toList]

theorem getPath_setParts (parts : List String) (v : Value) (d : Dict)
    (h : parts ≠ []) :
    getPath parts (Value.obj (setParts parts v d)) = some v := by
  induction parts generalizing d with
  | nil => exact absurd rfl h
  | cons p ps ih =>
    cases ps with
    | nil =>
      simp [setParts, getPath, dlookup_dinsert_self]
    | cons q qs =>
      simp only [setParts, getPath]
      rw [dlookup_dinsert_self]
      exact ih _ (List.cons_ne_nil _ _)

theorem setParts_nil_shape (p : String) (ps : List String) (v : Value) :
    ∃ w, setParts (p :: ps) v [] = [(p, w)] := by
  cases ps with
  | nil => exact ⟨v, rfl⟩
  | cons q qs => exact ⟨Value.obj (setParts (q :: qs) v []), rfl⟩

theorem string_ne_of_toList_ne (a b : String) (h : a.toList ≠ b.toList) : a ≠ b :=
  fun hab => h (congrArg String.toList hab)

theorem containsDot_iff (key : String) : containsDot key = true ↔ '.' ∈ key.toList := by
  simp [containsDot, List.elem_iff]

theorem lStarts_eq_append (p s : List Char) (h : lStarts p s = true) :
    s = p ++ s.drop p.length := by
  induction p generalizing s with
  | nil => simp
  | cons a t ih =>
    cases s with
    | nil => simp [lStarts] at h
    | cons b u =>
      simp only [lStarts] at h
      by_cases hab : a = b
      · rw [if_pos hab] at h
        subst hab
        simpa using ih u h
      · rw [if_neg hab] at h
        exact absurd h (by simp)

theorem strStarts_eq_append (key p : String) (h : strStarts key p = true) :
    key = p ++ strDrop key p.toList.length := by
  have := lStarts_eq_append p.toList key.toList h
  have hkey : key = String.mk key.toList := rfl
  rw [hkey]
  conv_lhs => rw [this]
  rfl

theorem set_hierarchical_value_true (pi : Dict) (key : String) (v : Value) :
    (set_hierarchical_value pi key v).2 = true := by
  unfold set_hierarchical_value
  split_ifs <;> first
    | rfl
    | (split
       · rfl
       · split <;> rfl)

theorem store_personal_info_pi (now : String) (d : Doc) (key : String) (v : Value) :
    (store_personal_info now d key v).1.personal_info
      = (set_hierarchical_value d.personal_info key v).1 := by
  simp [store_personal_info, set_hierarchical_value_true, save_memory]

theorem updateGoalsList_eq_none (now : String) (goal_id : Int) (st : String)
    (gs : List Goal) (h : ∀ g ∈ gs, g.id ≠ goal_id) :
    updateGoalsList now goal_id st gs = none := by
  induction gs with
  | nil => rfl
  | cons g t ih =>
    simp only [updateGoalsList]
    rw [if_neg (h g (List.mem_cons_self g t))]
    rw [ih (fun g' hg' => h g' (List.mem_cons_of_mem _ hg'))]

/-! ### Claim theorems -/

/-- Claim C1: the spec requires that migration never drops a key, and the
source comments and spec design notes make this the intent; the code violates
it. On the flat document `{"ai_experiment_canvas_structure": "v"}` the
migration's final innovations conditional (whose `innovations_data` aliases
`new_structure["innovations"]`) erases the whole innovations category, so the
result is `{"innovations": {}}` and no path in the resulting tree reaches the
original value. -/
theorem C1_migration_drops_canvas_key :
    migrate_personal_info_structure [("ai_experiment_canvas_structure", Value.str "v")]
      = ([("innovations", Value.obj [])], true)
    ∧ ∀ parts, getPath parts (Value.obj [("innovations", Value.obj [])])
        ≠ some (Value.str "v") := by
  refine ⟨rfl, ?_⟩
  intro parts
  match parts with
  | [] => simp [getPath]
  | p :: ps =>
    by_cases hp : "innovations" = p
    · subst hp
      cases ps with
      | nil => simp [getPath, dlookup]
      | cons q qs => simp [getPath, dlookup]
    · simp [getPath, dlookup, hp]

/-- Claim C4 counterexample: the claim counts `misc` among the fixed top-level
categories whose presence marks a document as already hierarchical, but the
code's `hierarchical_categories` list omits `misc`; a misc-only document is
re-migrated, wrapping the old `misc` inside a new one and signalling a
migration instead of a no-op. -/
theorem C4_misc_only_not_idempotent :
    migrate_personal_info_structure [("misc", Value.obj [("x", Value.str "a")])]
      = ([("misc", Value.obj [("misc", Value.obj [("x", Value.str "a")])])], true)
    ∧ ([("misc", Value.obj [("misc", Value.obj [("x", Value.str "a")])])] : Dict)
        ≠ [("misc", Value.obj [("x", Value.str "a")])] :=
  ⟨rfl, by decide⟩

/-- Claim C4, amended: for every document whose `personal_info` has one of the
seven fixed categories `basic`, `career`, `book`, `work_roles`, `innovations`,
`communication`, `values_insights` (not `misc`) present and mapped to a
nested structure, the migration pass makes no change and returns the no-op
signal. -/
theorem C4_migration_idempotent_amended (pi : Dict)
    (h : pi.any (fun kv => hierarchical_categories.contains kv.1 && isObj kv.2) = true) :
    migrate_personal_info_structure pi = (pi, false) := by
  unfold migrate_personal_info_structure
  rw [if_pos h]

/-- Witness for `C4_migration_idempotent_amended` at a concrete
already-hierarchical document. -/
theorem C4_migration_idempotent_amended_witness :
    ([("basic", Value.obj [("name", Value.str "J")])] : Dict).any
        (fun kv => hierarchical_categories.contains kv.1 && isObj kv.2) = true
    ∧ migrate_personal_info_structure [("basic", Value.obj [("name", Value.str "J")])]
        = ([("basic", Value.obj [("name", Value.str "J")])], false) :=
  ⟨by decide, C4_migration_idempotent_amended _ (by decide)⟩

/-- Claim C5: storing at `book.author` makes `book_author` readable with the
same value and `found=true`, and vice versa, starting from the initialized
document. -/
theorem C5_legacy_equivalence (v : Value) (n0 n1 : String) :
    get_personal_info (store_personal_info n1 (initialize_memory n0) "book.author" v).1
        "book_author" = ⟨some v, true⟩
    ∧ get_personal_info (store_personal_info n1 (initialize_memory n0) "book_author" v).1
        "book.author" = ⟨some v, true⟩ :=
  ⟨rfl, rfl⟩

/-- Claim C6: `store_personal_info` always returns the success result — the
error branch is unreachable because `_set_hierarchical_value` returns `True`
on every path. -/
theorem C6_store_always_succeeds (now : String) (d : Doc) (key : String) (v : Value) :
    (store_personal_info now d key v).2 = ⟨"success", "Stored " ++ key⟩ := by
  simp [store_personal_info, set_hierarchical_value_true]

/-- Claim C10: lookup does not distinguish leaves from category nodes — a key
that is bound at top level (for example a category name) returns whatever is
stored there, mapping nodes included, with `found=true`; and a dot path whose
traversal ends at an internal mapping node likewise returns that whole
sub-mapping. -/
theorem C10_lookup_returns_mappings (d : Doc) (key : String) (sub : Dict) :
    (dlookup d.personal_info key = some (Value.obj sub) →
      get_personal_info d key = ⟨some (Value.obj sub), true⟩)
    ∧ (dlookup d.personal_info key = none → containsDot key = true →
        getPath (splitDot key) (Value.obj d.personal_info) = some (Value.obj sub) →
        get_personal_info d key = ⟨some (Value.obj sub), true⟩) := by
  constructor
  · intro h
    simp [get_personal_info, get_hierarchical_value, h]
  · intro h1 h2 h3
    simp [get_personal_info, get_hierarchical_value, h1, h2, h3]

/-- Witness for `C10_lookup_returns_mappings`: `get_personal_info "misc"` on a
document with a `misc` category returns the whole `misc` mapping, and the dot
path `a.b` ending at an internal node returns that sub-mapping. -/
theorem C10_lookup_returns_mappings_witness :
    (dlookup [("misc", Value.obj [("a", Value.str "x")])] "misc"
        = some (Value.obj [("a", Value.str "x")])
      ∧ get_personal_info ⟨[("misc", Value.obj [("a", Value.str "x")])], [], [], [], [], "t", "t"⟩
          "misc" = ⟨some (Value.obj [("a", Value.str "x")]), true⟩)
    ∧ (dlookup [("a", Value.obj [("b", Value.obj [("c", Value.str "x")])])] "a.b" = none
      ∧ containsDot "a.b" = true
      ∧ getPath (splitDot "a.b")
          (Value.obj [("a", Value.obj [("b", Value.obj [("c", Value.str "x")])])])
          = some (Value.obj [("c", Value.str "x")])
      ∧ get_personal_info
          ⟨[("a", Value.obj [("b", Value.obj [("c", Value.str "x")])])], [], [], [], [], "t", "t"⟩
          "a.b" = ⟨some (Value.obj [("c", Value.str "x")]), true⟩) :=
  ⟨⟨rfl, (C10_lookup_returns_mappings
      ⟨[("misc", Value.obj [("a", Value.str "x")])], [], [], [], [], "t", "t"⟩ "misc"
      [("a", Value.str "x")]).1 rfl⟩,
   ⟨rfl, rfl, rfl, (C10_lookup_returns_mappings
      ⟨[("a", Value.obj [("b", Value.obj [("c", Value.str "x")])])], [], [], [], [], "t", "t"⟩
      "a.b" [("c", Value.str "x")]).2 rfl rfl rfl⟩⟩

/-- Claim C8: updating a goal whose id matches no stored goal returns the
error result and leaves the whole document (goals included) unchanged. -/
theorem C8_goal_update_error_atomicity (now : String) (d : Doc) (goal_id : Int)
    (st : String) (h : ∀ g ∈ d.goals, g.id ≠ goal_id) :
    update_goal_status now d goal_id st
      = (d, ⟨"error", "Goal " ++ toString goal_id ++ " not found", none⟩) := by
  unfold update_goal_status
  rw [updateGoalsList_eq_none now goal_id st d.goals h]

/-- Witness for `C8_goal_update_error_atomicity` at a concrete document with
one goal of id 1 and the missing id 2. -/
theorem C8_goal_update_error_atomicity_witness :
    (∀ g ∈ ([⟨1, "g", "general", none, "medium", "active", "t0", none⟩] : List Goal),
      g.id ≠ 2)
    ∧ update_goal_status "t1"
        ⟨[], [], [], [], [⟨1, "g", "general", none, "medium", "active", "t0", none⟩], "t0", "t0"⟩
        2 "completed"
      = (⟨[], [], [], [], [⟨1, "g", "general", none, "medium", "active", "t0", none⟩], "t0", "t0"⟩,
         ⟨"error", "Goal 2 not found", none⟩) :=
  ⟨by decide,
   C8_goal_update_error_atomicity "t1"
     ⟨[], [], [], [], [⟨1, "g", "general", none, "medium", "active", "t0", none⟩], "t0", "t0"⟩
     2 "completed" (by decide)⟩

/-- Claim C3: category suggestion is deterministic first-match-wins over the
fixed priority order basic, career, book, innovations, communication,
values_insights — the source's if-chain equals the spec's ordered-rule
evaluation for every key — and storing under `phone_number`, `new_project`
and `core_principle` places the value under `basic`, `innovations` and
`values_insights` respectively. -/
theorem C3_suggestion_first_match :
    (∀ key, suggest_category_for_key key = suggestFirstMatch key)
    ∧ (∀ (v : Value) (n0 n1 : String),
        (store_personal_info n1 (initialize_memory n0) "phone_number" v).1.personal_info
          = [("basic", Value.obj [("phone_number", v)])])
    ∧ (∀ (v : Value) (n0 n1 : String),
        (store_personal_info n1 (initialize_memory n0) "new_project" v).1.personal_info
          = [("innovations", Value.obj [("new_project", v)])])
    ∧ (∀ (v : Value) (n0 n1 : String),
        (store_personal_info n1 (initialize_memory n0) "core_principle" v).1.personal_info
          = [("values_insights", Value.obj [("core_principle", v)])]) := by
  refine ⟨fun key => ?_, fun v n0 n1 => rfl, fun v n0 n1 => rfl, fun v n0 n1 => rfl⟩
  cases hb1 : ["email", "phone", "address", "contact", "location"].any
      (fun p => strSub p (strLower key)) <;>
  cases hb2 : ["job", "work", "career", "role", "position", "company"].any
      (fun p => strSub p (strLower key)) <;>
  cases hb3 : strStarts (strLower key) "book_" <;>
  cases hb4 : ["publication", "isbn", "publisher"].any
      (fun p => strSub p (strLower key)) <;>
  cases hb5 : ["project", "innovation", "tool", "framework", "canvas"].any
      (fun p => strSub p (strLower key)) <;>
  cases hb6 : ["communication", "style", "preference", "podcast", "speaking"].any
      (fun p => strSub p (strLower key)) <;>
  cases hb7 : ["value", "insight", "principle", "belief", "method"].any
      (fun p => strSub p (strLower key)) <;>
    simp [suggest_category_for_key, suggestFirstMatch, suggestionRules, List.find?,
      hb1, hb2, hb3, hb4, hb5, hb6, hb7]

/-- Claim C7 (spec-modelled operation): `reorganize_misc_items` re-runs the
category-suggestion rules against every leaf inside `misc`, moves each leaf
with a non-empty suggestion to `{suggestion}.{leaf-name}`, leaves the others,
and reports the counts moved and remaining; on the test scenario with misc
leaves `email_backup`, `ai_tool`, `core_value`, `random_item`,
`unknown_thing` it moves exactly 3 and leaves exactly 2, and the moved leaves
are readable at their new category paths. -/
theorem C7_reorganize_misc_items :
    (∀ (now : String) (d : Doc),
      (reorganize_misc_items now d).2.status = "success"
      ∧ (reorganize_misc_items now d).2.moved
          = (miscLeaves d.personal_info).countP
              (fun kv => (suggest_category_for_key kv.1).isSome)
      ∧ (reorganize_misc_items now d).2.remaining_in_misc
          = (miscLeaves d.personal_info).countP
              (fun kv => (suggest_category_for_key kv.1).isNone))
    ∧ ((reorganize_misc_items "t6" c7doc).2 = ⟨"success", 3, 2⟩
      ∧ get_personal_info (reorganize_misc_items "t6" c7doc).1 "basic.email_backup"
          = ⟨some (Value.str "test@example.com"), true⟩
      ∧ get_personal_info (reorganize_misc_items "t6" c7doc).1 "innovations.ai_tool"
          = ⟨some (Value.str "ChatGPT for writing"), true⟩
      ∧ get_personal_info (reorganize_misc_items "t6" c7doc).1 "values_insights.core_value"
          = ⟨some (Value.str "Honesty"), true⟩
      ∧ get_personal_info (reorganize_misc_items "t6" c7doc).1 "misc.random_item"
          = ⟨some (Value.str "stays here"), true⟩
      ∧ get_personal_info (reorganize_misc_items "t6" c7doc).1 "misc.unknown_thing"
          = ⟨some (Value.str "also stays"), true⟩) := by
  refine ⟨fun now d => ?_, rfl, rfl, rfl, rfl, rfl, rfl⟩
  rcases hm : dlookup d.personal_info "misc" with _ | v
  · simp [reorganize_misc_items, miscLeaves, hm]
  · cases v with
    | str s => simp [reorganize_misc_items, miscLeaves, hm]
    | obj miscd =>
      simp [reorganize_misc_items, miscLeaves, hm, List.countP_eq_length_filter]

theorem get_after_category_set (c key : String) (v : Value) (hck : c ≠ key)
    (hdot : containsDot key = false) :
    get_hierarchical_value [(c, Value.obj [(key, v)])] key = some v := by
  simp [get_hierarchical_value, dlookup, hck, hdot, scanLegacy]

theorem get_after_book_set (key rest : String) (v : Value)
    (hkey : key = "book_" ++ rest) (hdot : containsDot key = false) :
    get_hierarchical_value [("book", Value.obj [(rest, v)])] key = some v := by
  subst hkey
  have hbk : ("book" : String) ≠ "book_" ++ rest := by
    intro h
    have h2 : (['b', 'o', 'o', 'k'] : List Char)
        = 'b' :: 'o' :: 'o' :: 'k' :: '_' :: rest.toList :=
      congrArg String.toList h
    simp at h2
  have hrk : rest ≠ "book_" ++ rest := by
    intro h
    have h2 : rest.toList = 'b' :: 'o' :: 'o' :: 'k' :: '_' :: rest.toList :=
      congrArg String.toList h
    have h3 := congrArg List.length h2
    simp at h3
    omega
  simp [get_hierarchical_value, dlookup, hbk, hrk, hdot, scanLegacy, scanPrefixed]

theorem suggest_mem_categories (key c : String)
    (h : suggest_category_for_key key = some c) :
    c = "basic" ∨ c = "career" ∨ c = "book" ∨ c = "innovations"
      ∨ c = "communication" ∨ c = "values_insights" := by
  simp only [suggest_category_for_key] at h
  split_ifs at h <;> simp_all

theorem roundtrip_from_empty (key : String) (v : Value)
    (hf : strStarts key "formula_ai_" = false)
    (hc : strStarts key "ai_experiment_canvas_" = false)
    (hm : key ≠ "misc") (hcar : key ≠ "career") (hinn : key ≠ "innovations")
    (hcom : key ≠ "communication") (hvi : key ≠ "values_insights") :
    get_hierarchical_value (set_hierarchical_value [] key v).1 key = some v := by
  cases hdot : containsDot key with
  | true =>
    have hpi : (set_hierarchical_value [] key v).1 = setParts (splitDot key) v [] := by
      simp [set_hierarchical_value, set_hier_dotted, hdot]
    rw [hpi]
    rcases hsp : splitDot key with _ | ⟨p, ps⟩
    · exact absurd hsp (splitDot_ne_nil key)
    · have hpnd : '.' ∉ p.toList :=
        mem_splitDot_no_dot key p (by rw [hsp]; exact List.mem_cons_self _ _)
      have hpk : p ≠ key := by
        intro h
        exact hpnd (h ▸ (containsDot_iff key).mp hdot)
      obtain ⟨w, hw⟩ := setParts_nil_shape p ps v
      have hnone : dlookup (setParts (p :: ps) v []) key = none := by
        rw [hw]
        simp [dlookup, hpk]
      have hpath : getPath (p :: ps) (Value.obj (setParts (p :: ps) v [])) = some v :=
        getPath_setParts _ _ _ (List.cons_ne_nil _ _)
      simp [get_hierarchical_value, hnone, hdot, hsp, hpath]
  | false =>
    have hknd : '.' ∉ key.toList := by
      intro hmem
      have h2 : containsDot key = true := (containsDot_iff key).mpr hmem
      rw [hdot] at h2
      exact Bool.false_ne_true h2
    cases hbook : strStarts key "book_" with
    | true =>
      have hkey : key = "book_" ++ strDrop key 5 := by
        have h2 := strStarts_eq_append key "book_" hbook
        rwa [show ("book_" : String).toList.length = 5 from rfl] at h2
      have hrnd : '.' ∉ (strDrop key 5).toList := by
        intro hmem
        exact hknd (List.mem_of_mem_drop hmem)
      have hpi : (set_hierarchical_value [] key v).1
          = setParts (splitDot ("book." ++ strDrop key 5)) v [] := by
        simp [set_hierarchical_value, set_hier_dotted, hdot, hbook]
      have hsp : splitDot ("book." ++ strDrop key 5) = ["book", strDrop key 5] :=
        splitDot_append_one "book" (strDrop key 5) (by decide) hrnd
      rw [hpi, hsp]
      exact get_after_book_set key (strDrop key 5) v hkey hdot
    | false =>
      rcases htab : tlookup legacy_mappings key with _ | path
      · rcases hsug : suggest_category_for_key key with _ | c
        · have hpi : (set_hierarchical_value [] key v).1
              = [("misc", Value.obj [(key, v)])] := by
            simp [set_hierarchical_value, hdot, hbook, hf, hc, htab, hsug, dlookup, dinsert]
          rw [hpi]
          exact get_after_category_set "misc" key v (Ne.symm hm) hdot
        · have hsix := suggest_mem_categories key c hsug
          have hck : c ≠ key := by
            rcases hsix with h | h | h | h | h | h <;> subst h
            · intro hk
              rw [← hk] at hsug
              exact absurd hsug (by decide)
            · exact Ne.symm hcar
            · intro hk
              rw [← hk] at hsug
              exact absurd hsug (by decide)
            · exact Ne.symm hinn
            · exact Ne.symm hcom
            · exact Ne.symm hvi
          have hcnd : '.' ∉ c.toList := by
            rcases hsix with h | h | h | h | h | h <;> subst h <;> decide
          have hsp : splitDot (c ++ "." ++ key) = [c, key] :=
            splitDot_append_one c key hcnd hknd
          have hpi : (set_hierarchical_value [] key v).1
              = setParts (splitDot (c ++ "." ++ key)) v [] := by
            simp [set_hierarchical_value, set_hier_dotted, hdot, hbook, hf, hc, htab, hsug]
          rw [hpi, hsp]
          exact get_after_category_set c key v hck hdot
      · have hpi : (set_hierarchical_value [] key v).1
            = setParts (splitDot path) v [] := by
          simp [set_hierarchical_value, set_hier_dotted, hdot, hbook, hf, hc, htab]
        rw [hpi]
        simp only [legacy_mappings, tlookup] at htab
        split_ifs at htab <;>
          first
          | exact Option.noConfusion htab
          | (injection htab with hp
             subst hp
             subst_vars
             rfl)

/-- Claim C2 counterexample: from the initialized document, storing under the
flat key `formula_ai_concept` succeeds (the value lands at
`innovations.formula_ai.concept`), but reading back the same key returns
`found=false` — the legacy scan only inspects each category's direct
children. -/
theorem C2_roundtrip_fails_on_formula_ai_key :
    (store_personal_info "t1" (initialize_memory "t0") "formula_ai_concept"
        (Value.str "v")).2.status = "success"
    ∧ get_personal_info
        (store_personal_info "t1" (initialize_memory "t0") "formula_ai_concept"
          (Value.str "v")).1 "formula_ai_concept"
      = ⟨none, false⟩ :=
  ⟨rfl, rfl⟩

/-- Claim C2, amended: from the initialized (empty) document, for every key
that does not carry the `formula_ai_` or `ai_experiment_canvas_` prefix (whose
storage nests two levels deep, out of reach of the legacy scan) and is not one
of the self-shadowing names `misc`, `career`, `innovations`, `communication`,
`values_insights` (whose lookup returns the category mapping created by the
store itself), storing any value and reading the same key back returns that
value with `found=true`. -/
theorem C2_store_get_roundtrip_amended (key : String) (v : Value) (n0 n1 : String)
    (hf : strStarts key "formula_ai_" = false)
    (hc : strStarts key "ai_experiment_canvas_" = false)
    (hm : key ≠ "misc") (hcar : key ≠ "career") (hinn : key ≠ "innovations")
    (hcom : key ≠ "communication") (hvi : key ≠ "values_insights") :
    (store_personal_info n1 (initialize_memory n0) key v).2.status = "success"
    ∧ get_personal_info (store_personal_info n1 (initialize_memory n0) key v).1 key
        = ⟨some v, true⟩ := by
  constructor
  · simp [store_personal_info, set_hierarchical_value_true]
  · unfold get_personal_info
    rw [store_personal_info_pi]
    rw [show (initialize_memory n0).personal_info = ([] : Dict) from rfl]
    rw [roundtrip_from_empty key v hf hc hm hcar hinn hcom hvi]

/-- Witness for `C2_store_get_roundtrip_amended` at the concrete key
`nickname` (no suggestion, stored under `misc.nickname`). -/
theorem C2_store_get_roundtrip_amended_witness :
    strStarts "nickname" "formula_ai_" = false
    ∧ strStarts "nickname" "ai_experiment_canvas_" = false
    ∧ "nickname" ≠ "misc" ∧ "nickname" ≠ "career" ∧ "nickname" ≠ "innovations"
    ∧ "nickname" ≠ "communication" ∧ "nickname" ≠ "values_insights"
    ∧ ((store_personal_info "t1" (initialize_memory "t0") "nickname"
          (Value.str "x")).2.status = "success"
      ∧ get_personal_info
          (store_personal_info "t1" (initialize_memory "t0") "nickname"
            (Value.str "x")).1 "nickname"
        = ⟨some (Value.str "x"), true⟩) :=
  ⟨by decide, by decide, by decide, by decide, by decide, by decide, by decide,
   C2_store_get_roundtrip_amended "nickname" (Value.str "x") "t0" "t1"
     (by decide) (by decide) (by decide) (by decide) (by decide) (by decide) (by decide)⟩

theorem memoryMatches_iff (query : Option String) (tags : Option (List String)) (m : Memory) :
    memoryMatches query tags m = true ↔ matchSpecP query tags m := by
  cases query with
  | none =>
    cases tags with
    | none => simp [memoryMatches, matchSpecP]
    | some ts =>
      by_cases hts : ts = [] <;>
        simp [memoryMatches, matchSpecP, hts, List.any_eq_true, List.elem_iff]
  | some q =>
    cases tags with
    | none =>
      by_cases hq : q = "" <;>
        simp [memoryMatches, matchSpecP, hq]
    | some ts =>
      by_cases hq : q = "" <;> by_cases hts : ts = [] <;>
        simp [memoryMatches, matchSpecP, hq, hts, List.any_eq_true, List.elem_iff]

/-- Claim C9 counterexample: with `query=""` (given but empty) and a
non-empty tags filter, the claim as stated returns every memory whose content
contains the query — and the empty string is a substring of every content —
but Python truthiness (`if query and ...`) disables the query branch, so the
memory is not returned. -/
theorem C9_search_claim_fails_on_empty_query :
    strSub (strLower "") (strLower "abc") = true
    ∧ (search_memories [⟨1, "abc", [], none, "t1"⟩] (some "") (some ["x"]) 10).memories
        = [] :=
  ⟨rfl, rfl⟩

/-- Claim C9, amended: with Python truthiness (an empty query string or empty
tag list counts as not given) and a non-negative limit, `search_memories`
returns exactly the matching memories — the match test equals the claim's
criterion — sorted newest-timestamp-first (stable), truncated to the first
`limit` entries, with `count` the number returned and `total_memories` the
number stored. (For a negative limit, Python slicing instead drops `-limit`
entries from the end.) -/
theorem C9_search_semantics_amended (mems : List Memory) (query : Option String)
    (tags : Option (List String)) (limit : Int) (h : 0 ≤ limit) :
    (∀ m, memoryMatches query tags m = true ↔ matchSpecP query tags m)
    ∧ (∃ all : List Memory,
        all.Perm (mems.filter (memoryMatches query tags))
        ∧ List.Sorted newerEq all
        ∧ (search_memories mems query tags limit).memories = all.take limit.toNat)
    ∧ (search_memories mems query tags limit).count
        = (search_memories mems query tags limit).memories.length
    ∧ (search_memories mems query tags limit).total_memories = mems.length := by
  refine ⟨fun m => memoryMatches_iff query tags m,
    ⟨List.insertionSort newerEq (mems.filter (memoryMatches query tags)),
      List.perm_insertionSort _ _, List.sorted_insertionSort _ _, ?_⟩, rfl, rfl⟩
  simp [search_memories, pySlice, h]

/-- Witness for `C9_search_semantics_amended` at a concrete one-memory store
with no filters and limit 10. -/
theorem C9_search_semantics_amended_witness :
    (0 : Int) ≤ 10
    ∧ ((∀ m, memoryMatches none none m = true ↔ matchSpecP none none m)
      ∧ (∃ all : List Memory,
          all.Perm (([⟨1, "abc", [], none, "t1"⟩] : List Memory).filter
            (memoryMatches none none))
          ∧ List.Sorted newerEq all
          ∧ (search_memories [⟨1, "abc", [], none, "t1"⟩] none none 10).memories
              = all.take (10 : Int).toNat)
      ∧ (search_memories [⟨1, "abc", [], none, "t1"⟩] none none 10).count
          = (search_memories [⟨1, "abc", [], none, "t1"⟩] none none 10).memories.length
      ∧ (search_memories [⟨1, "abc", [], none, "t1"⟩] none none 10).total_memories
          = ([⟨1, "abc", [], none, "t1"⟩] : List Memory).length) :=
  ⟨by decide,
   C9_search_semantics_amended [⟨1, "abc", [], none, "t1"⟩] none none 10 (by decide)⟩

end PersonalMemory
